import Mathlib

set_option maxHeartbeats 1000000

/-!
Shallow embedding of the kernel-density-estimation transform
(`src/transform/kde.ts`) of the `data-set` repository.

Numbers are modelled as rationals (`ℚ`); JavaScript `NaN` is modelled as
`none` in an `Option ℚ` where it can arise (missing field values, the
density of an empty sample list).  Helper modules that are not under
`src/` (`get-series-values`, `kernel`, `bandwidth`, `partition`,
`option-parser`, the `View` class, and the external
`simple-statistics.kernelDensityEstimation`) are modelled from the spec;
each such definition says so in its doc comment.  The concrete kernel and
bandwidth-rule formulas are out of scope per §1 of the spec, so those
modules are parameters of the embedding.
-/

/-- A scalar cell value of a row: a number, a string, or (in output rows)
an array of numbers.  Mirrors the value shapes `kde.ts` reads and writes. -/
inductive Val where
  | num (q : ℚ)
  | str (s : String)
  | arr (xs : List ℚ)
deriving DecidableEq

/-- A row is a field-name → value record, modelled as an association list
in property-insertion order. -/
abbrev Row := List (String × Val)

/-- Property read `r[f]`: the value at the first occurrence of key `f`,
`none` when the property is absent (JavaScript `undefined`). -/
def rowGet (r : Row) (f : String) : Option Val :=
  (r.find? (fun p => p.1 == f)).map (fun p => p.2)

/-- Property write `r[f] = v`: overwrites an existing key in place,
otherwise appends the new key — JavaScript object-assignment semantics. -/
def rowSet (r : Row) (f : String) (v : Val) : Row :=
  if r.any (fun p => p.1 == f) then
    r.map (fun p => if p.1 == f then (p.1, v) else p)
  else r ++ [(f, v)]

/-- `pick(r, fs)` (`@antv/util`): the sub-record of `r` at the keys `fs`,
skipping keys `r` does not have. -/
def pickRow (r : Row) (fs : List String) : Row :=
  fs.filterMap (fun f => (rowGet r f).map (fun v => (f, v)))

/-- Numeric coercion of a cell: numbers pass through, everything else
(absent, string, array) is `none`, standing for an arithmetic `NaN`. -/
def valNum : Option Val → Option ℚ
  | some (.num q) => some q
  | _ => none

/-- The tabular view the transform reads from and writes back into.
Modelled from the spec: the `View` class is not under `src/`; §6 requires
`rows`, `getColumn`, and `range`. -/
structure View where
  rows : List Row

/-- Modelled from the spec: `getColumn(field)` returns the ordered sequence
of the field's values, one per row (§6). -/
def View.getColumn (v : View) (f : String) : List (Option Val) :=
  v.rows.map (fun r => rowGet r f)

/-- `Math.min(...)` over a nonempty argument list (the empty case never
arises in the transform: at least one field, each range has two entries). -/
def jsMin : List ℚ → ℚ
  | [] => 0
  | x :: t => t.foldl min x

/-- `Math.max(...)` over a nonempty argument list. -/
def jsMax : List ℚ → ℚ
  | [] => 0
  | x :: t => t.foldl max x

/-- Modelled from the spec: `range(field) -> [min, max]`, the minimum and
maximum numeric value observed in the field's column (§6). -/
def View.range (v : View) (f : String) : List ℚ :=
  [jsMin ((v.getColumn f).filterMap valNum), jsMax ((v.getColumn f).filterMap valNum)]

/-- The dynamic shapes the `fields` option can take, as `kde.ts` line 44
distinguishes them: absent, present but not an array, or an array. -/
inductive FieldsVal where
  | missing
  | notArr
  | arr (fs : List String)
deriving DecidableEq

/-- The dynamic shapes of the `as` option (line 48): not an array, or an
array of names. -/
inductive AsVal where
  | notArr
  | arr (xs : List String)
deriving DecidableEq

/-- The dynamic shapes of the `extent` option (line 63). -/
inductive ExtentVal where
  | notArr
  | arr (xs : List ℚ)
deriving DecidableEq

/-- The dynamic shapes of the `method` option (lines 51-60): a kernel name,
a kernel callable, or some other value. -/
inductive MethodVal where
  | name (s : String)
  | fn (k : ℚ → ℚ)
  | other

/-- The dynamic shapes of the `bandwidth` option (lines 71-78): a rule
name, a callable on the column, a number, or some other value. -/
inductive BwVal where
  | name (s : String)
  | fn (f : List (Option Val) → ℚ)
  | num (q : ℚ)
  | other

/-- The caller's options record; `none` / `.missing` marks an absent key,
so that `assign({}, DEFAULT_OPTIONS, options)` can fill the default. -/
structure Options where
  minSize : Option ℚ := none
  as : Option AsVal := none
  fields : FieldsVal := .missing
  extent : Option ExtentVal := none
  method : Option MethodVal := none
  bandwidth : Option BwVal := none
  step : Option ℚ := none
  groupBy : Option (List String) := none

/-- The options record after line 42 merged the defaults in. -/
structure Merged where
  minSize : ℚ
  as : AsVal
  fields : FieldsVal
  extent : ExtentVal
  method : MethodVal
  bandwidth : BwVal
  step : ℚ
  groupBy : List String

/-- `assign({}, DEFAULT_OPTIONS, options)` (line 42 with lines 14-23): a
fresh record holding the caller's value where present, the default
otherwise. -/
def mergeDefaults (o : Options) : Merged :=
  { minSize := o.minSize.getD (1 / 100)
    as := o.as.getD (.arr ["key", "y", "size"])
    fields := o.fields
    extent := o.extent.getD (.arr [])
    method := o.method.getD (.name "gaussian")
    bandwidth := o.bandwidth.getD (.name "nrd")
    step := o.step.getD 0
    groupBy := o.groupBy.getD [] }

/-- Modelled from the spec: `getFields` (`../util/option-parser`, not under
`src/`) resolves the configured fields; per §3/§4.1 these are the `fields`
option of the merged record. -/
def getFields (m : Merged) : FieldsVal := m.fields

/-- Modelled from the spec: the kernel registry (`../util/kernel`, not
under `src/`) is a name → shape-function mapping (§6); the concrete
formulas are out of scope (§1), so the module is a parameter. -/
abbrev KernelModule := List (String × (ℚ → ℚ))

/-- Dynamic lookup `kernel[s]`. -/
def KernelModule.lookup (K : KernelModule) (s : String) : Option (ℚ → ℚ) :=
  (K.find? (fun p => p.1 == s)).map (fun p => p.2)

/-- `KERNEL_METHODS = keys(kernel)` (line 25). -/
def KERNEL_METHODS (K : KernelModule) : List String := K.map (fun p => p.1)

/-- Modelled from the spec and the source comment on line 20: the bandwidth
module (`../util/bandwidth`, not under `src/`) exports the rules `nrd` and
`silverman`, each mapping a column to a number (§4.3, §6); the formulas
are out of scope (§1), so the module is a parameter. -/
structure BandwidthModule where
  nrd : List (Option Val) → ℚ
  silverman : List (Option Val) → ℚ

/-- Dynamic lookup `bandwidth[s]`. -/
def BandwidthModule.lookup (B : BandwidthModule) (s : String) :
    Option (List (Option Val) → ℚ) :=
  if s = "nrd" then some B.nrd
  else if s = "silverman" then some B.silverman
  else none

/-- The `TypeError`s `transform` can throw (lines 45, 49, 54, 59) — the
spec's `ConfigError` taxonomy (§7). -/
inductive KdeError where
  | invalidFields
  | invalidAs
  | unknownMethod (s : String)
  | methodNotFn
deriving DecidableEq

/-- Number of domain points strictly below `b`: the `k` with
`a + k * step < b`. -/
def seriesCount (a b step : ℚ) : ℕ := (⌈(b - a) / step⌉).toNat

/-- Modelled from the spec: `getSeriesValues` (`../util/get-series-values`,
not under `src/`) builds the sample domain — starting at `extent[0]`,
stepping by `step` while below `extent[1]`, then including `extent[1]`
itself (§4.5, P4); a degenerate `a = b` yields the single point `b = a`. -/
def getSeriesValues (a b step : ℚ) : List ℚ :=
  ((List.range (seriesCount a b step)).map (fun k : ℕ => a + (k : ℚ) * step)) ++ [b]

/-- The grouping key of a row: the ordered tuple of its `groupBy` values
(§4.4). -/
def groupKey (groupBy : List String) (r : Row) : List (Option Val) :=
  groupBy.map (fun f => rowGet r f)

/-- The distinct grouping keys in first-seen order. -/
def seenKeys (groupBy : List String) (rows : List Row) : List (List (Option Val)) :=
  rows.foldl
    (fun ks r => if groupKey groupBy r ∈ ks then ks else ks ++ [groupKey groupBy r]) []

/-- Modelled from the spec: `partition` (`../util/partition`, not under
`src/`) splits the rows into groups by structural equality of the key
tuple, in first-seen key order, keeping input order inside each group;
an empty `groupBy` yields exactly one group holding all rows (§4.4). -/
def partition (rows : List Row) (groupBy : List String) : List (List Row) :=
  if groupBy = [] then [rows]
  else (seenKeys groupBy rows).map
    (fun k => rows.filter (fun r => decide (groupKey groupBy r = k)))

/-- Collects a list of possibly-NaN numbers; `none` as soon as one entry is
`none`, as NaN poisons a JavaScript sum. -/
def seqOpt : List (Option ℚ) → Option (List ℚ)
  | [] => some []
  | none :: _ => none
  | some x :: t => (seqOpt t).map (fun l => x :: l)

/-- Modelled from the spec: the external
`simple-statistics.kernelDensityEstimation` as §4.5 describes it —
`density(x)` is the mean over the samples `s` of
`kernel((x - s) / bandwidth) / bandwidth`.  `none` is JavaScript `NaN`:
an empty sample list gives `0 / bw / 0 = NaN`, and a missing or
non-numeric sample makes the sum `NaN`. -/
def kernelDensityEstimation (X : List (Option Val)) (k : ℚ → ℚ) (bw : ℚ)
    (x : ℚ) : Option ℚ :=
  match seqOpt (X.map valNum) with
  | none => none
  | some [] => none
  | some ys => some ((ys.map (fun s => k ((x - s) / bw))).sum / bw / (ys.length : ℚ))

/-- `as[0]` after the destructuring `const [key, y, size] = as` (line 93). -/
def asKeyName (as3 : List String) : String := as3.headD ""

/-- `as[1]` of the destructured output names. -/
def asYName (as3 : List String) : String := (as3.drop 1).headD ""

/-- `as[2]` of the destructured output names. -/
def asSizeName (as3 : List String) : String := (as3.drop 2).headD ""

/-- The `each(seriesValues, ...)` loop (lines 97-103): the (domain point,
density) pairs whose density is defined (not NaN) and clears `minSize`,
in domain order. -/
def keptPoints (pdf : ℚ → Option ℚ) (minSize : ℚ) (series : List ℚ) :
    List (ℚ × ℚ) :=
  series.filterMap (fun yv =>
    match pdf yv with
    | some sv => if minSize ≤ sv then some (yv, sv) else none
    | none => none)

/-- The body of the inner `each(fields, ...)` loop (lines 86-105) for one
group and one field: pick the group's `groupBy` values from its first row,
set `as[0]` to the field name (line 94), and fill `as[1]` / `as[2]` with
the domain points whose density clears `minSize` and with those densities.
When `as[1]` and `as[2]` are the same name, the assignments of lines 95-96
leave that name bound to one shared array and the two pushes of lines
100-101 interleave into it, so its final value alternates domain points
and densities; with distinct names the two arrays fill independently. -/
def buildRow (groupBy : List String) (as3 : List String) (field : String)
    (group : List Row) (k : ℚ → ℚ) (bw minSize : ℚ) (series : List ℚ) : Row :=
  if asYName as3 = asSizeName as3 then
    rowSet (rowSet (rowSet (pickRow (group.headD []) groupBy) (asKeyName as3) (.str field))
        (asYName as3)
        (.arr (((keptPoints (kernelDensityEstimation
          (group.map (fun item => rowGet item field)) k bw) minSize series).map
            (fun p => [p.1, p.2])).flatten)))
      (asSizeName as3)
      (.arr (((keptPoints (kernelDensityEstimation
        (group.map (fun item => rowGet item field)) k bw) minSize series).map
          (fun p => [p.1, p.2])).flatten))
  else
    rowSet (rowSet (rowSet (pickRow (group.headD []) groupBy) (asKeyName as3) (.str field))
        (asYName as3)
        (.arr ((keptPoints (kernelDensityEstimation
          (group.map (fun item => rowGet item field)) k bw) minSize series).map
            (fun p => p.1))))
      (asSizeName as3)
      (.arr ((keptPoints (kernelDensityEstimation
        (group.map (fun item => rowGet item field)) k bw) minSize series).map
          (fun p => p.2)))

/-- The nested `forIn(groups, ...)` / `each(fields, ...)` loops (lines
84-106): one output row per (group, field) pair, appended group-major in
first-seen group order, field-minor in configured field order. -/
def assemble (groups : List (List Row)) (fields : List String)
    (groupBy : List String) (as3 : List String) (k : ℚ → ℚ)
    (bw minSize : ℚ) (series : List ℚ) : List Row :=
  (groups.map (fun g =>
    fields.map (fun f => buildRow groupBy as3 f g k bw minSize series))).flatten

/-- Lines 51-60: a string `method` must name a registry kernel and is
replaced by it; anything else must already be a callable. -/
def resolveMethod (K : KernelModule) : MethodVal → Except KdeError (ℚ → ℚ)
  | .name s =>
    match K.lookup s with
    | some k => .ok k
    | none => .error (.unknownMethod s)
  | .fn k => .ok k
  | .other => .error .methodNotFn

/-- `rangeArr` of lines 64-68: the concatenation, in field order, of every
configured field's `[min, max]` range. -/
def allRangeVals (dv : View) (fields : List String) : List ℚ :=
  (fields.map (fun f => dv.range f)).flatten

/-- Lines 62-70: a non-empty `extent` array is used verbatim; otherwise the
extent is `[Math.min(...rangeArr), Math.max(...rangeArr)]` over the
combined ranges of all configured fields. -/
def resolveExtent (dv : View) (fields : List String) : ExtentVal → List ℚ
  | .arr (e :: es) => e :: es
  | .arr [] => [jsMin (allRangeVals dv fields), jsMax (allRangeVals dv fields)]
  | .notArr => [jsMin (allRangeVals dv fields), jsMax (allRangeVals dv fields)]

/-- Lines 71-78: a known rule name is invoked on the column, a callable is
invoked on the column, a positive number is used directly, and anything
else falls back to `bandwidth.nrd` on the column. -/
def resolveBandwidth (B : BandwidthModule) (col : List (Option Val)) :
    BwVal → ℚ
  | .name s =>
    match B.lookup s with
    | some rule => rule col
    | none => B.nrd col
  | .fn f => f col
  | .num q => if q ≤ 0 then B.nrd col else q
  | .other => B.nrd col

/-- The validation prefix of `transform` (lines 43-60): resolves the
fields, the output names and the kernel, or fails with the corresponding
`ConfigError`. -/
def validate (K : KernelModule) (m : Merged) :
    Except KdeError (List String × List String × (ℚ → ℚ)) :=
  match getFields m with
  | .missing => .error .invalidFields
  | .notArr => .error .invalidFields
  | .arr fields =>
    if fields.length < 1 then .error .invalidFields
    else
      match m.as with
      | .notArr => .error .invalidAs
      | .arr as3 =>
        if as3.length = 3 then
          match resolveMethod K m.method with
          | .error e => .error e
          | .ok k => .ok (fields, as3, k)
        else .error .invalidAs

/-- The post-validation pipeline (lines 62-106): resolve the extent, the
bandwidth (from `fields[0]`'s column), the shared sample domain (stride
`step` when truthy, else the bandwidth), partition the rows, and assemble
one output row per (group, field) pair. -/
def pipeline (B : BandwidthModule) (dv : View) (m : Merged)
    (fields as3 : List String) (k : ℚ → ℚ) : List Row :=
  let extent := resolveExtent dv fields m.extent
  let bw := resolveBandwidth B (dv.getColumn (fields.headD "")) m.bandwidth
  let series := getSeriesValues (extent.headD 0) ((extent.drop 1).headD 0)
    (if m.step = 0 then bw else m.step)
  assemble (partition dv.rows m.groupBy) fields m.groupBy as3 k bw m.minSize series

/-- The whole `transform` (lines 41-109) as a function from the view and
the caller's options to either a `ConfigError` or the replacement row
sequence. -/
def transform (K : KernelModule) (B : BandwidthModule) (dv : View)
    (o : Options) : Except KdeError (List Row) :=
  match validate K (mergeDefaults o) with
  | .error e => .error e
  | .ok (fields, as3, k) => .ok (pipeline B dv (mergeDefaults o) fields as3 k)

/-- The state the caller can observe across an invocation: the view and
the caller's own options record. -/
structure CallerState where
  view : View
  opts : Options

/-- The caller-visible effect of `transform`: line 42 merges the defaults
into a fresh record, leaving the caller's options untouched, and the
view's rows are assigned exactly once, at line 108, on the success path
only — a thrown `ConfigError` leaves the state as it was. -/
def kdeStep (K : KernelModule) (B : BandwidthModule) (s : CallerState) :
    CallerState :=
  match transform K B s.view s.opts with
  | .ok rows => { view := { rows := rows }, opts := s.opts }
  | .error _ => s

/-- The claim C1 condition on the resolved `fields`: missing, not a
sequence, or empty. -/
def fieldsInvalid : FieldsVal → Prop
  | .missing => True
  | .notArr => True
  | .arr fs => fs = []

/-- The claim C1 condition on `as`: not a sequence of exactly 3 entries. -/
def asInvalid : AsVal → Prop
  | .notArr => True
  | .arr xs => xs.length ≠ 3

/-- The claim C1 condition on `method`: a string not naming a known
kernel, or neither a string nor a callable. -/
def methodInvalid (K : KernelModule) : MethodVal → Prop
  | .name s => s ∉ KERNEL_METHODS K
  | .fn _ => False
  | .other => True

/-- The claim C6 condition on `bandwidth`: not a known rule name, not a
callable, and not a positive number. -/
def bwInvalid (B : BandwidthModule) : BwVal → Prop
  | .name s => B.lookup s = none
  | .fn _ => False
  | .num q => q ≤ 0
  | .other => True

/-- A concrete kernel registry instantiating the parametric embedding in
concrete evaluations: one kernel named `gaussian` with a constant shape
(the shape formula itself is out of scope, §1). -/
def sampleK : KernelModule := [("gaussian", fun _ => 1)]

/-- A concrete bandwidth module for concrete evaluations. -/
def sampleB : BandwidthModule := { nrd := fun _ => 1, silverman := fun _ => 2 }

/-- A three-row, one-column view for concrete evaluations. -/
def sampleView : View := ⟨[[("v", .num 1)], [("v", .num 2)], [("v", .num 3)]]⟩

/-- Options naming just the required `fields`; everything else defaults. -/
def sampleOpts : Options := { fields := .arr ["v"] }

/-- The single output row `transform` produces on the sample inputs. -/
def sampleRow : Row := [("key", .str "v"), ("y", .arr [1, 2, 3]), ("size", .arr [1, 1, 1])]

/-- A one-row grouped view whose `groupBy` field `g` collides with `as[0]`
in `collideOpts`. -/
def collideView : View := ⟨[[("g", .str "a"), ("v", .num 1)]]⟩

/-- Options whose `as[0]` name `g` is also the `groupBy` field. -/
def collideOpts : Options :=
  { fields := .arr ["v"], as := some (.arr ["g", "yy", "ss"]), groupBy := some ["g"] }

/-- A grouped view with two groups and two numeric fields. -/
def groupedView : View :=
  ⟨[[("g", .str "a"), ("u", .num 1), ("w", .num 2)],
    [("g", .str "b"), ("u", .num 3), ("w", .num 4)]]⟩

/-- Options with two fields and one `groupBy` key. -/
def groupedOpts : Options := { fields := .arr ["u", "w"], groupBy := some ["g"] }

/-- An empty view: its single (degenerate) group has no values for any field. -/
def emptyView : View := ⟨[]⟩

/-- A caller state whose options are missing the required `fields`, so the
transform throws. -/
def failState : CallerState := { view := sampleView, opts := {} }

/-- A two-row view exercising the duplicated-`as`-names aliasing. -/
def aliasView : View := ⟨[[("v", .num 0)], [("v", .num 1)]]⟩

/-- Options whose `as[1]` and `as[2]` are the same name `a` (length 3, so
validation passes), making lines 100-101 push into one shared array. -/
def aliasOpts : Options :=
  { fields := .arr ["v"], as := some (.arr ["k", "a", "a"]) }

/-! ### Helper lemmas about row records -/

theorem rowGet_rowSet_same (r : Row) (f : String) (v : Val) :
    rowGet (rowSet r f v) f = some v := by
  unfold rowSet
  by_cases h : r.any (fun p => p.1 == f)
  · rw [if_pos h]
    induction r with
    | nil => simp at h
    | cons p t ih =>
      rw [List.map_cons]
      by_cases hp : p.1 = f
      · simp [rowGet, List.find?_cons_of_pos, hp]
      · have hp' : (p.1 == f) = false := by simp [hp]
        have ht : t.any (fun q => q.1 == f) := by
          simp only [List.any_cons, hp', Bool.false_or] at h
          exact h
        have hrec := ih ht
        simp only [hp', Bool.false_eq_true, if_false]
        rw [rowGet] at hrec ⊢
        rw [List.find?_cons_of_neg]
        · exact hrec
        · simp [hp]
  · rw [if_neg h]
    have hnone : r.find? (fun p => p.1 == f) = none := by
      rw [List.find?_eq_none]
      intro x hx hbx
      exact h (List.any_eq_true.mpr ⟨x, hx, hbx⟩)
    rw [rowGet, List.find?_append, hnone]
    simp

theorem rowGet_rowSet_ne (r : Row) (f g : String) (v : Val) (hfg : g ≠ f) :
    rowGet (rowSet r f v) g = rowGet r g := by
  unfold rowSet
  by_cases h : r.any (fun p => p.1 == f)
  · rw [if_pos h]
    clear h
    induction r with
    | nil => rfl
    | cons p t ih =>
      rw [List.map_cons]
      by_cases hp : p.1 = f
      · have hpg : (p.1 == g) = false := by
          simp only [beq_eq_false_iff_ne, ne_eq]
          intro he
          exact hfg (he ▸ hp)
        rw [rowGet, rowGet, List.find?_cons_of_neg, List.find?_cons_of_neg]
        · exact ih
        · simp only [hpg]; exact fun hc => by simp at hc
        · have : (p.1 == f) = true := by simp [hp]
          simp only [this, if_true, hpg]
          exact fun hc => by simp at hc
      · have hp' : (p.1 == f) = false := by simp [hp]
        simp only [hp', Bool.false_eq_true, if_false]
        by_cases hpg : p.1 = g
        · rw [rowGet, rowGet, List.find?_cons_of_pos, List.find?_cons_of_pos]
          · simp [hpg]
          · simp [hpg]
        · rw [rowGet, rowGet, List.find?_cons_of_neg, List.find?_cons_of_neg]
          · exact ih
          · simp [hpg]
          · simp [hpg]
  · rw [if_neg h]
    rw [rowGet, rowGet, List.find?_append]
    have : List.find? (fun p => p.1 == g) [(f, v)] = none := by
      rw [List.find?_cons_of_neg]
      · rfl
      · simp only [beq_iff_eq]
        exact fun hc => hfg hc.symm
    rw [this]
    simp

theorem rowGet_pickRow_none (r : Row) (fs : List String) (f : String)
    (h : rowGet r f = none) : rowGet (pickRow r fs) f = none := by
  induction fs with
  | nil => rfl
  | cons f' t ih =>
    unfold pickRow
    rw [List.filterMap_cons]
    cases hf' : rowGet r f' with
    | none => simpa [pickRow] using ih
    | some v =>
      have hne : f' ≠ f := by
        intro he
        rw [he, h] at hf'
        cases hf'
      simp only [Option.map_some']
      rw [rowGet, List.find?_cons_of_neg]
      · exact ih
      · simp [hne]

theorem rowGet_pickRow_mem (r : Row) (fs : List String) (f : String) (h : f ∈ fs) :
    rowGet (pickRow r fs) f = rowGet r f := by
  induction fs with
  | nil => cases h
  | cons f' t ih =>
    unfold pickRow
    rw [List.filterMap_cons]
    by_cases he : f' = f
    · subst he
      cases hf' : rowGet r f' with
      | none =>
        simp only [Option.map_none']
        exact rowGet_pickRow_none r t f' hf'
      | some v =>
        simp only [Option.map_some']
        rw [rowGet, List.find?_cons_of_pos]
        · simp
        · simp
    · have hmem : f ∈ t := by
        rcases List.mem_cons.mp h with h1 | h1
        · exact absurd h1.symm he
        · exact h1
      cases hf' : rowGet r f' with
      | none => exact ih hmem
      | some v =>
        simp only [Option.map_some']
        rw [rowGet, List.find?_cons_of_neg]
        · exact ih hmem
        · simp [he]

/-! ### Helper lemmas about `Math.min` / `Math.max` folds -/

theorem foldl_min_le_init (t : List ℚ) (a : ℚ) : t.foldl min a ≤ a := by
  induction t generalizing a with
  | nil => simp
  | cons x t ih =>
    rw [List.foldl_cons]
    exact le_trans (ih (min a x)) (min_le_left a x)

theorem foldl_min_le_mem (t : List ℚ) (a x : ℚ) : x ∈ t → t.foldl min a ≤ x := by
  induction t generalizing a with
  | nil => intro hx; cases hx
  | cons y t ih =>
    intro hx
    rw [List.foldl_cons]
    rcases List.mem_cons.mp hx with h | h
    · rw [h]
      exact le_trans (foldl_min_le_init t (min a y)) (min_le_right a y)
    · exact ih (min a y) h

theorem foldl_min_mem (t : List ℚ) (a : ℚ) : t.foldl min a = a ∨ t.foldl min a ∈ t := by
  induction t generalizing a with
  | nil => exact Or.inl rfl
  | cons y t ih =>
    rw [List.foldl_cons]
    rcases ih (min a y) with h | h
    · rcases min_choice a y with hm | hm
      · exact Or.inl (h.trans hm)
      · exact Or.inr (List.mem_cons.mpr (Or.inl (h.trans hm)))
    · exact Or.inr (List.mem_cons.mpr (Or.inr h))

theorem foldl_max_init_le (t : List ℚ) (a : ℚ) : a ≤ t.foldl max a := by
  induction t generalizing a with
  | nil => simp
  | cons x t ih =>
    rw [List.foldl_cons]
    exact le_trans (le_max_left a x) (ih (max a x))

theorem foldl_max_mem_le (t : List ℚ) (a x : ℚ) : x ∈ t → x ≤ t.foldl max a := by
  induction t generalizing a with
  | nil => intro hx; cases hx
  | cons y t ih =>
    intro hx
    rw [List.foldl_cons]
    rcases List.mem_cons.mp hx with h | h
    · rw [h]
      exact le_trans (le_max_right a y) (foldl_max_init_le t (max a y))
    · exact ih (max a y) h

theorem foldl_max_mem (t : List ℚ) (a : ℚ) : t.foldl max a = a ∨ t.foldl max a ∈ t := by
  induction t generalizing a with
  | nil => exact Or.inl rfl
  | cons y t ih =>
    rw [List.foldl_cons]
    rcases ih (max a y) with h | h
    · rcases max_choice a y with hm | hm
      · exact Or.inl (h.trans hm)
      · exact Or.inr (List.mem_cons.mpr (Or.inl (h.trans hm)))
    · exact Or.inr (List.mem_cons.mpr (Or.inr h))

theorem jsMin_le (l : List ℚ) (x : ℚ) (hx : x ∈ l) : jsMin l ≤ x := by
  cases l with
  | nil => cases hx
  | cons a t =>
    rcases List.mem_cons.mp hx with h | h
    · exact h ▸ foldl_min_le_init t a
    · exact foldl_min_le_mem t a x h

theorem jsMin_mem (l : List ℚ) (h : l ≠ []) : jsMin l ∈ l := by
  cases l with
  | nil => cases h rfl
  | cons a t =>
    rcases foldl_min_mem t a with h1 | h1
    · exact List.mem_cons.mpr (Or.inl h1)
    · exact List.mem_cons.mpr (Or.inr h1)

theorem jsMax_ge (l : List ℚ) (x : ℚ) (hx : x ∈ l) : x ≤ jsMax l := by
  cases l with
  | nil => cases hx
  | cons a t =>
    rcases List.mem_cons.mp hx with h | h
    · exact h ▸ foldl_max_init_le t a
    · exact foldl_max_mem_le t a x h

theorem jsMax_mem (l : List ℚ) (h : l ≠ []) : jsMax l ∈ l := by
  cases l with
  | nil => cases h rfl
  | cons a t =>
    rcases foldl_max_mem t a with h1 | h1
    · exact List.mem_cons.mpr (Or.inl h1)
    · exact List.mem_cons.mpr (Or.inr h1)

/-! ### Helper lemmas about the kernel registry -/

theorem kernel_lookup_eq_none_iff (K : KernelModule) (s : String) :
    K.lookup s = none ↔ s ∉ KERNEL_METHODS K := by
  unfold KernelModule.lookup KERNEL_METHODS
  rw [Option.map_eq_none', List.find?_eq_none]
  constructor
  · intro h hmem
    rw [List.mem_map] at hmem
    obtain ⟨p, hp, he⟩ := hmem
    exact h p hp (by simp [he])
  · intro h p hp hb
    rw [beq_iff_eq] at hb
    exact h (List.mem_map.mpr ⟨p, hp, hb⟩)

/-! ### Helper lemmas about the sample domain -/

theorem lt_seriesCount_iff (a b s : ℚ) (hs : 0 < s) (k : ℕ) :
    k < seriesCount a b s ↔ a + (k : ℚ) * s < b := by
  unfold seriesCount
  rw [Int.lt_toNat, Int.lt_ceil, lt_div_iff₀ hs]
  push_cast
  constructor <;> intro h <;> linarith

theorem getSeriesValues_eq_single (a s : ℚ) : getSeriesValues a a s = [a] := by
  unfold getSeriesValues seriesCount
  simp

theorem getSeriesValues_pairwise (a b s : ℚ) (hs : 0 < s) :
    List.Pairwise (fun x y => x < y) (getSeriesValues a b s) := by
  unfold getSeriesValues
  rw [List.pairwise_append]
  refine ⟨?_, List.pairwise_singleton _ _, ?_⟩
  · rw [List.pairwise_map]
    refine List.Pairwise.imp ?_ (List.pairwise_lt_range _)
    intro k l hkl
    have hq : (k : ℚ) < (l : ℚ) := by exact_mod_cast hkl
    have := mul_lt_mul_of_pos_right hq hs
    linarith
  · intro x hx y hy
    rw [List.mem_singleton] at hy
    subst hy
    rw [List.mem_map] at hx
    obtain ⟨k, hk, rfl⟩ := hx
    rw [List.mem_range] at hk
    exact (lt_seriesCount_iff a y s hs k).mp hk

theorem getSeriesValues_head (a b s : ℚ) (hab : a ≤ b) (hs : 0 < s) :
    (getSeriesValues a b s).headD 0 = a := by
  rcases eq_or_lt_of_le hab with rfl | hlt
  · rw [getSeriesValues_eq_single]
    rfl
  · have hpos : 0 < seriesCount a b s := by
      rw [lt_seriesCount_iff a b s hs 0]
      simpa using hlt
    obtain ⟨m, hm⟩ : ∃ m, seriesCount a b s = m + 1 :=
      ⟨seriesCount a b s - 1, (Nat.succ_pred_eq_of_pos hpos).symm⟩
    unfold getSeriesValues
    rw [hm, List.range_succ_eq_map]
    simp

theorem getSeriesValues_le (a b s : ℚ) (hs : 0 < s) (x : ℚ)
    (hx : x ∈ getSeriesValues a b s) : x ≤ b := by
  unfold getSeriesValues at hx
  rw [List.mem_append] at hx
  rcases hx with hx | hx
  · rw [List.mem_map] at hx
    obtain ⟨k, hk, rfl⟩ := hx
    rw [List.mem_range] at hk
    exact le_of_lt ((lt_seriesCount_iff a b s hs k).mp hk)
  · rw [List.mem_singleton] at hx
    exact le_of_eq hx

theorem getSeriesValues_end_mem (a b s : ℚ) : b ∈ getSeriesValues a b s := by
  unfold getSeriesValues
  exact List.mem_append_right _ (List.mem_singleton_self b)

/-! ### Helper lemmas about validation and the transform's structure -/

theorem resolveMethod_error_iff (K : KernelModule) (mv : MethodVal) :
    (∃ e, resolveMethod K mv = .error e) ↔ methodInvalid K mv := by
  cases mv with
  | name s =>
    unfold resolveMethod methodInvalid
    simp only []
    cases hl : K.lookup s with
    | some k =>
      have hmem : s ∈ KERNEL_METHODS K := by
        by_contra hmem
        rw [← kernel_lookup_eq_none_iff] at hmem
        rw [hmem] at hl
        cases hl
      simp [hmem]
    | none =>
      have hmem : s ∉ KERNEL_METHODS K := (kernel_lookup_eq_none_iff K s).mp hl
      simp [hmem]
  | fn k => simp [resolveMethod, methodInvalid]
  | other => simp [resolveMethod, methodInvalid]

theorem validate_error_iff (K : KernelModule) (m : Merged) :
    (∃ e, validate K m = .error e) ↔
      (fieldsInvalid m.fields ∨ asInvalid m.as ∨ methodInvalid K m.method) := by
  unfold validate getFields
  cases hf : m.fields with
  | missing => simp [fieldsInvalid]
  | notArr => simp [fieldsInvalid]
  | arr fs =>
    simp only [fieldsInvalid]
    by_cases hl : fs.length < 1
    · have hfs : fs = [] := List.length_eq_zero.mp (Nat.lt_one_iff.mp hl)
      simp [if_pos hl, hfs]
    · rw [if_neg hl]
      have hfs : ¬fs = [] := by
        intro he
        exact hl (by simp [he])
      cases ha : m.as with
      | notArr => simp [asInvalid, hfs]
      | arr xs =>
        simp only [asInvalid]
        by_cases h3 : xs.length = 3
        · rw [if_pos h3]
          cases hm : resolveMethod K m.method with
          | error e =>
            have : methodInvalid K m.method :=
              (resolveMethod_error_iff K m.method).mp ⟨e, hm⟩
            simp [hfs, h3, this]
          | ok kk =>
            have : ¬methodInvalid K m.method := by
              intro hbad
              obtain ⟨e, he⟩ := (resolveMethod_error_iff K m.method).mpr hbad
              rw [he] at hm
              cases hm
            simp [hfs, h3, this]
        · rw [if_neg h3]
          simp [hfs, h3]

theorem validate_ok_inv (K : KernelModule) (m : Merged) (fields as3 : List String)
    (k : ℚ → ℚ) (hv : validate K m = .ok (fields, as3, k)) :
    m.fields = .arr fields ∧ fields ≠ [] ∧ m.as = .arr as3 ∧ as3.length = 3 ∧
      resolveMethod K m.method = .ok k := by
  unfold validate getFields at hv
  cases hf : m.fields with
  | missing => rw [hf] at hv; simp only [] at hv; cases hv
  | notArr => rw [hf] at hv; simp only [] at hv; cases hv
  | arr fs =>
    rw [hf] at hv
    simp only [] at hv
    by_cases hl : fs.length < 1
    · rw [if_pos hl] at hv; cases hv
    · rw [if_neg hl] at hv
      cases ha : m.as with
      | notArr => rw [ha] at hv; simp only [] at hv; cases hv
      | arr xs =>
        rw [ha] at hv
        simp only [] at hv
        by_cases h3 : xs.length = 3
        · rw [if_pos h3] at hv
          cases hm : resolveMethod K m.method with
          | error e => rw [hm] at hv; simp only [] at hv; cases hv
          | ok kk =>
            rw [hm] at hv
            simp only [] at hv
            have h := Except.ok.inj hv
            have h1 : fs = fields := congrArg Prod.fst h
            have h2 : (xs, kk) = (as3, k) := congrArg Prod.snd h
            have h2a : xs = as3 := congrArg Prod.fst h2
            have h2b : kk = k := congrArg Prod.snd h2
            subst h1
            subst h2a
            subst h2b
            refine ⟨rfl, ?_, rfl, h3, rfl⟩
            intro he
            exact hl (by simp [he])
        · rw [if_neg h3] at hv; cases hv

theorem transform_eq_of_validate (K : KernelModule) (B : BandwidthModule)
    (dv : View) (o : Options) (fields as3 : List String) (k : ℚ → ℚ)
    (hv : validate K (mergeDefaults o) = .ok (fields, as3, k)) :
    transform K B dv o = .ok (pipeline B dv (mergeDefaults o) fields as3 k) := by
  unfold transform
  rw [hv]

theorem transform_ok_inv (K : KernelModule) (B : BandwidthModule) (dv : View)
    (o : Options) (rows : List Row) (h : transform K B dv o = .ok rows) :
    ∃ fields as3 k, validate K (mergeDefaults o) = .ok (fields, as3, k) ∧
      rows = pipeline B dv (mergeDefaults o) fields as3 k := by
  unfold transform at h
  cases hv : validate K (mergeDefaults o) with
  | error e => rw [hv] at h; cases h
  | ok t =>
    obtain ⟨fields, as3, k⟩ := t
    rw [hv] at h
    exact ⟨fields, as3, k, rfl, (Except.ok.inj h).symm⟩

theorem transform_error_iff (K : KernelModule) (B : BandwidthModule) (dv : View)
    (o : Options) :
    (∃ e, transform K B dv o = .error e) ↔
      (fieldsInvalid (mergeDefaults o).fields ∨ asInvalid (mergeDefaults o).as ∨
        methodInvalid K (mergeDefaults o).method) := by
  rw [← validate_error_iff K (mergeDefaults o)]
  unfold transform
  cases hv : validate K (mergeDefaults o) with
  | error e => simp [hv]
  | ok t =>
    obtain ⟨f, a3, k⟩ := t
    simp [hv]

/-! ### Helper lemmas about the density curves and the assembled output -/

theorem kde_none_of_no_values (X : List (Option Val)) (k : ℚ → ℚ) (bw x : ℚ)
    (h : ∀ v ∈ X, valNum v = none) :
    kernelDensityEstimation X k bw x = none := by
  unfold kernelDensityEstimation
  cases X with
  | nil => rfl
  | cons v t =>
    have hv : valNum v = none := h v (List.mem_cons_self v t)
    rw [List.map_cons, hv]
    rfl

theorem mem_kept_minSize (series : List ℚ) (pdf : ℚ → Option ℚ) (m : ℚ)
    (p : ℚ × ℚ) (hp : p ∈ keptPoints pdf m series) : m ≤ p.2 := by
  unfold keptPoints at hp
  rw [List.mem_filterMap] at hp
  obtain ⟨yv, _, he⟩ := hp
  cases hd : pdf yv with
  | none => rw [hd] at he; cases he
  | some sv =>
    rw [hd] at he
    simp only [] at he
    by_cases hm : m ≤ sv
    · rw [if_pos hm] at he
      cases he
      exact hm
    · rw [if_neg hm] at he
      cases he

theorem mem_assemble_inv (groups : List (List Row)) (fields : List String)
    (gb : List String) (as3 : List String) (k : ℚ → ℚ) (bw m : ℚ)
    (series : List ℚ) (r : Row)
    (hr : r ∈ assemble groups fields gb as3 k bw m series) :
    ∃ g ∈ groups, ∃ f ∈ fields, r = buildRow gb as3 f g k bw m series := by
  unfold assemble at hr
  rw [List.mem_flatten] at hr
  obtain ⟨l, hl, hrl⟩ := hr
  rw [List.mem_map] at hl
  obtain ⟨g, hg, rfl⟩ := hl
  rw [List.mem_map] at hrl
  obtain ⟨f, hf, rfl⟩ := hrl
  exact ⟨g, hg, f, hf, rfl⟩

theorem buildRow_mem_assemble (groups : List (List Row)) (fields : List String)
    (gb : List String) (as3 : List String) (k : ℚ → ℚ) (bw m : ℚ)
    (series : List ℚ) (g : List Row) (f : String)
    (hg : g ∈ groups) (hf : f ∈ fields) :
    buildRow gb as3 f g k bw m series ∈ assemble groups fields gb as3 k bw m series := by
  unfold assemble
  rw [List.mem_flatten]
  exact ⟨fields.map (fun f' => buildRow gb as3 f' g k bw m series),
    List.mem_map_of_mem _ hg, List.mem_map_of_mem _ hf⟩

theorem keptPoints_eq_nil (pdf : ℚ → Option ℚ) (m : ℚ) (series : List ℚ)
    (h : ∀ yv, pdf yv = none) : keptPoints pdf m series = [] := by
  unfold keptPoints
  induction series with
  | nil => rfl
  | cons yv t ih =>
    rw [List.filterMap_cons, h yv]
    exact ih

theorem buildRow_shape (gb as3 : List String) (field : String) (g : List Row)
    (k : ℚ → ℚ) (bw m : ℚ) (series : List ℚ)
    (hys : asYName as3 ≠ asSizeName as3) :
    ∃ ys ss : List ℚ,
      rowGet (buildRow gb as3 field g k bw m series) (asYName as3) = some (.arr ys) ∧
      rowGet (buildRow gb as3 field g k bw m series) (asSizeName as3) = some (.arr ss) ∧
      ys.length = ss.length ∧ ∀ v ∈ ss, m ≤ v := by
  have hss : ∀ v ∈ (keptPoints (kernelDensityEstimation
      (g.map (fun item => rowGet item field)) k bw) m series).map (fun p => p.2), m ≤ v := by
    intro v hv
    rw [List.mem_map] at hv
    obtain ⟨p, hp, rfl⟩ := hv
    exact mem_kept_minSize series _ m p hp
  unfold buildRow
  rw [if_neg hys]
  rw [rowGet_rowSet_ne _ _ _ _ hys, rowGet_rowSet_same, rowGet_rowSet_same]
  refine ⟨_, _, rfl, rfl, ?_, hss⟩
  rw [List.length_map, List.length_map]

theorem buildRow_keyField (gb as3 : List String) (field : String) (g : List Row)
    (k : ℚ → ℚ) (bw m : ℚ) (series : List ℚ)
    (hy : asYName as3 ≠ asKeyName as3) (hs : asSizeName as3 ≠ asKeyName as3) :
    rowGet (buildRow gb as3 field g k bw m series) (asKeyName as3) =
      some (.str field) := by
  unfold buildRow
  by_cases hals : asYName as3 = asSizeName as3
  · rw [if_pos hals, rowGet_rowSet_ne _ _ _ _ (Ne.symm hs),
      rowGet_rowSet_ne _ _ _ _ (Ne.symm hy), rowGet_rowSet_same]
  · rw [if_neg hals, rowGet_rowSet_ne _ _ _ _ (Ne.symm hs),
      rowGet_rowSet_ne _ _ _ _ (Ne.symm hy), rowGet_rowSet_same]

theorem buildRow_groupVals (gb as3 : List String) (field : String) (g : List Row)
    (k : ℚ → ℚ) (bw m : ℚ) (series : List ℚ) (f : String) (hf : f ∈ gb)
    (h0 : f ≠ asKeyName as3) (h1 : f ≠ asYName as3) (h2 : f ≠ asSizeName as3) :
    rowGet (buildRow gb as3 field g k bw m series) f = rowGet (g.headD []) f := by
  unfold buildRow
  by_cases hals : asYName as3 = asSizeName as3
  · rw [if_pos hals, rowGet_rowSet_ne _ _ _ _ h2, rowGet_rowSet_ne _ _ _ _ h1,
      rowGet_rowSet_ne _ _ _ _ h0]
    exact rowGet_pickRow_mem _ _ _ hf
  · rw [if_neg hals, rowGet_rowSet_ne _ _ _ _ h2, rowGet_rowSet_ne _ _ _ _ h1,
      rowGet_rowSet_ne _ _ _ _ h0]
    exact rowGet_pickRow_mem _ _ _ hf

theorem buildRow_empty_curve (gb as3 : List String) (field : String) (g : List Row)
    (k : ℚ → ℚ) (bw m : ℚ) (series : List ℚ)
    (h : ∀ r ∈ g, valNum (rowGet r field) = none) :
    rowGet (buildRow gb as3 field g k bw m series) (asYName as3) = some (.arr []) ∧
    rowGet (buildRow gb as3 field g k bw m series) (asSizeName as3) = some (.arr []) := by
  have hX : ∀ v ∈ g.map (fun item => rowGet item field), valNum v = none := by
    intro v hv
    rw [List.mem_map] at hv
    obtain ⟨r, hr, rfl⟩ := hv
    exact h r hr
  have hnil : keptPoints (kernelDensityEstimation
      (g.map (fun item => rowGet item field)) k bw) m series = [] :=
    keptPoints_eq_nil _ m series
      (fun yv => kde_none_of_no_values _ k bw yv hX)
  unfold buildRow
  by_cases hals : asYName as3 = asSizeName as3
  · rw [if_pos hals, hnil]
    constructor
    · rw [hals, rowGet_rowSet_same]
      rfl
    · rw [rowGet_rowSet_same]
      rfl
  · rw [if_neg hals, hnil]
    constructor
    · rw [rowGet_rowSet_ne _ _ _ _ hals, rowGet_rowSet_same]
      rfl
    · rw [rowGet_rowSet_same]
      rfl

theorem asNames_mem (as3 : List String) (h : as3.length = 3) :
    asKeyName as3 ∈ as3 ∧ asYName as3 ∈ as3 ∧ asSizeName as3 ∈ as3 := by
  cases as3 with
  | nil => simp at h
  | cons a t =>
    cases t with
    | nil => simp at h
    | cons b t2 =>
      cases t2 with
      | nil => simp at h
      | cons c t3 =>
        cases t3 with
        | nil => simp [asKeyName, asYName, asSizeName]
        | cons d t4 =>
          simp only [List.length_cons] at h
          omega

theorem flatten_map_map_length {α β γ : Type} (gs : List α) (fs : List β)
    (F : α → β → γ) :
    ((gs.map (fun g => fs.map (F g))).flatten).length = gs.length * fs.length := by
  induction gs with
  | nil => simp
  | cons g t ih =>
    rw [List.map_cons, List.flatten_cons, List.length_append, List.length_map, ih,
      List.length_cons, Nat.succ_mul, Nat.add_comm]

theorem flatten_map_map_getElem {α β γ : Type} (gs : List α) (fs : List β)
    (F : α → β → γ) (i j : ℕ) (hi : i < gs.length) (hj : j < fs.length) :
    ((gs.map (fun g => fs.map (F g))).flatten)[i * fs.length + j]? =
      some (F (gs.get ⟨i, hi⟩) (fs.get ⟨j, hj⟩)) := by
  induction gs generalizing i with
  | nil => cases hi
  | cons g t ih =>
    rw [List.map_cons, List.flatten_cons]
    cases i with
    | zero =>
      rw [Nat.zero_mul, Nat.zero_add]
      rw [List.getElem?_append, if_pos (by rw [List.length_map]; exact hj)]
      rw [List.getElem?_map, List.getElem?_eq_getElem hj]
      rfl
    | succ i2 =>
      have harith : (i2 + 1) * fs.length + j = (fs.map (F g)).length + (i2 * fs.length + j) := by
        rw [List.length_map]
        ring
      rw [harith, List.getElem?_append, if_neg (by omega), Nat.add_sub_cancel_left]
      exact ih i2 (Nat.lt_of_succ_lt_succ hi)

theorem allRangeVals_ne_nil (dv : View) (fields : List String) (hf : fields ≠ []) :
    allRangeVals dv fields ≠ [] := by
  cases fields with
  | nil => cases hf rfl
  | cons f t =>
    unfold allRangeVals
    rw [List.map_cons, List.flatten_cons]
    unfold View.range
    simp

theorem assemble_length (groups : List (List Row)) (fields : List String)
    (gb as3 : List String) (k : ℚ → ℚ) (bw m : ℚ) (series : List ℚ) :
    (assemble groups fields gb as3 k bw m series).length =
      groups.length * fields.length := by
  unfold assemble
  exact flatten_map_map_length groups fields
    (fun g f => buildRow gb as3 f g k bw m series)

theorem assemble_getElem (groups : List (List Row)) (fields : List String)
    (gb as3 : List String) (k : ℚ → ℚ) (bw m : ℚ) (series : List ℚ)
    (i j : ℕ) (hi : i < groups.length) (hj : j < fields.length) :
    (assemble groups fields gb as3 k bw m series)[i * fields.length + j]? =
      some (buildRow gb as3 (fields.get ⟨j, hj⟩) (groups.get ⟨i, hi⟩) k bw m series) := by
  unfold assemble
  exact flatten_map_map_getElem groups fields
    (fun g f => buildRow gb as3 f g k bw m series) i j hi hj

/-! ### The claims -/

/-- C1: for every options record, the transform fails with a `ConfigError`
(an `Except.error`, so no output is produced) exactly when the resolved
`fields` is missing, not a sequence, or empty; or `as` is not a sequence of
exactly 3 entries; or `method` is a string not naming a known kernel; or
`method` is neither such a string nor a callable. -/
theorem configError_iff (K : KernelModule) (B : BandwidthModule) (dv : View)
    (o : Options) :
    (∃ e, transform K B dv o = .error e) ↔
      (fieldsInvalid (mergeDefaults o).fields ∨ asInvalid (mergeDefaults o).as ∨
        methodInvalid K (mergeDefaults o).method) :=
  transform_error_iff K B dv o

/-- C2 counterexample: with the duplicated output names `as = ["k","a","a"]`
(length 3, so validation passes) on the rows `v = 0, 1`, the assignments of
lines 95-96 bind `as[1]` and `as[2]` to one shared array and the pushes of
lines 100-101 interleave into it: the size sequence — the output row's value
at `as[2] = "a"` — is `[0, 1, 1, 1]`, whose entry `0` (a kept domain point)
is below the resolved `minSize = 1/100`, refuting the claim as stated. -/
theorem output_row_shape_cex :
    transform sampleK sampleB aliasView aliasOpts =
      .ok [[("k", .str "v"), ("a", .arr [0, 1, 1, 1])]] ∧
    (mergeDefaults aliasOpts).as = .arr ["k", "a", "a"] ∧
    rowGet [("k", Val.str "v"), ("a", Val.arr [0, 1, 1, 1])]
      (asSizeName ["k", "a", "a"]) = some (.arr [0, 1, 1, 1]) ∧
    (0 : ℚ) ∈ ([0, 1, 1, 1] : List ℚ) ∧
    ¬ (mergeDefaults aliasOpts).minSize ≤ (0 : ℚ) :=
  ⟨by with_unfolding_all rfl, rfl, by decide, by decide, by
    have h : (mergeDefaults aliasOpts).minSize = 1 / 100 := rfl
    rw [h]
    norm_num⟩

/-- C2 (amended): provided the resolved `as[1]` and `as[2]` are distinct
names, every output row the transform produces has `y` and `size` sequences
of equal length, and every `size` entry is at least the resolved `minSize`.
The distinctness hypothesis is forced by the counterexample: with
`as[1] = as[2]` the pushes of lines 100-101 share one array, so kept domain
points land in the size sequence. -/
theorem output_row_shape (K : KernelModule) (B : BandwidthModule) (dv : View)
    (o : Options) (rows : List Row) (r : Row) (as3 : List String)
    (h : transform K B dv o = .ok rows) (hr : r ∈ rows)
    (has : (mergeDefaults o).as = .arr as3)
    (hys : asYName as3 ≠ asSizeName as3) :
    ∃ ys ss,
      rowGet r (asYName as3) = some (.arr ys) ∧
      rowGet r (asSizeName as3) = some (.arr ss) ∧
      ys.length = ss.length ∧ ∀ v ∈ ss, (mergeDefaults o).minSize ≤ v := by
  obtain ⟨fields, as3', k, hv, rfl⟩ := transform_ok_inv K B dv o rows h
  obtain ⟨_, _, has', _, _⟩ := validate_ok_inv K (mergeDefaults o) fields as3' k hv
  rw [has] at has'
  injection has' with he
  subst he
  simp only [pipeline] at hr
  obtain ⟨g, hg, f, hf, rfl⟩ := mem_assemble_inv _ _ _ _ _ _ _ _ _ hr
  obtain ⟨ys, ss, h1, h2, h3, h4⟩ := buildRow_shape (mergeDefaults o).groupBy as3 f g k
    (resolveBandwidth B (dv.getColumn (fields.headD "")) (mergeDefaults o).bandwidth)
    (mergeDefaults o).minSize
    (getSeriesValues ((resolveExtent dv fields (mergeDefaults o).extent).headD 0)
      (((resolveExtent dv fields (mergeDefaults o).extent).drop 1).headD 0)
      (if (mergeDefaults o).step = 0
        then resolveBandwidth B (dv.getColumn (fields.headD "")) (mergeDefaults o).bandwidth
        else (mergeDefaults o).step))
    hys
  exact ⟨ys, ss, h1, h2, h3, h4⟩

/-- C3 counterexample: with `as[0] = "g"` colliding with `groupBy = ["g"]`,
the single output row does not carry its source group's `g` value `"a"`
verbatim: the `row[key] = field` assignment of line 94 overwrote it with the
field name `"v"`, so the claim's conjunction (groupBy values verbatim and
`as[0]` set to the field name) fails at this input. -/
theorem grouped_output_cex :
    transform sampleK sampleB collideView collideOpts =
      .ok [[("g", .str "v"), ("yy", .arr [1]), ("ss", .arr [1])]] ∧
    rowGet [("g", Val.str "v"), ("yy", Val.arr [1]), ("ss", Val.arr [1])] "g" ≠
      rowGet (collideView.rows.headD []) "g" :=
  ⟨by with_unfolding_all rfl, by decide⟩

/-- C3 (amended): provided the three `as` names avoid the `groupBy` fields
and `as[1]`, `as[2]` differ from `as[0]`, the transform emits exactly one
output row per (group, field) pair — `groups.length × fields.length` rows,
indexed group-major in first-seen group order, field-minor in configured
field order — each row carrying `as[0] = field name` and the source group's
`groupBy` values verbatim.  The hypotheses are forced by the counterexample:
the `as` assignments of lines 94-96 overwrite colliding names. -/
theorem grouped_output_rows (K : KernelModule) (B : BandwidthModule) (dv : View)
    (o : Options) (fields as3 : List String) (k : ℚ → ℚ)
    (hv : validate K (mergeDefaults o) = .ok (fields, as3, k))
    (hdisj : ∀ n ∈ as3, n ∉ (mergeDefaults o).groupBy)
    (hy : asYName as3 ≠ asKeyName as3) (hs : asSizeName as3 ≠ asKeyName as3) :
    transform K B dv o = .ok (pipeline B dv (mergeDefaults o) fields as3 k) ∧
    (pipeline B dv (mergeDefaults o) fields as3 k).length =
      (partition dv.rows (mergeDefaults o).groupBy).length * fields.length ∧
    ∀ i j (hi : i < (partition dv.rows (mergeDefaults o).groupBy).length)
      (hj : j < fields.length),
      ∃ row,
        (pipeline B dv (mergeDefaults o) fields as3 k)[i * fields.length + j]? =
          some row ∧
        rowGet row (asKeyName as3) = some (.str (fields.get ⟨j, hj⟩)) ∧
        ∀ f ∈ (mergeDefaults o).groupBy,
          rowGet row f = rowGet
            (((partition dv.rows (mergeDefaults o).groupBy).get ⟨i, hi⟩).headD []) f := by
  obtain ⟨hfields, hfne, has, h3, hm⟩ := validate_ok_inv K (mergeDefaults o) fields as3 k hv
  obtain ⟨hkmem, hymem, hsmem⟩ := asNames_mem as3 h3
  have hpipe : pipeline B dv (mergeDefaults o) fields as3 k =
      assemble (partition dv.rows (mergeDefaults o).groupBy) fields
        (mergeDefaults o).groupBy as3 k
        (resolveBandwidth B (dv.getColumn (fields.headD "")) (mergeDefaults o).bandwidth)
        (mergeDefaults o).minSize
        (getSeriesValues ((resolveExtent dv fields (mergeDefaults o).extent).headD 0)
          (((resolveExtent dv fields (mergeDefaults o).extent).drop 1).headD 0)
          (if (mergeDefaults o).step = 0
            then resolveBandwidth B (dv.getColumn (fields.headD ""))
              (mergeDefaults o).bandwidth
            else (mergeDefaults o).step)) := rfl
  refine ⟨transform_eq_of_validate K B dv o fields as3 k hv, ?_, ?_⟩
  · rw [hpipe, assemble_length]
  · intro i j hi hj
    rw [hpipe]
    refine ⟨_, assemble_getElem _ _ _ _ _ _ _ _ i j hi hj, ?_, ?_⟩
    · exact buildRow_keyField _ _ _ _ _ _ _ _ hy hs
    · intro f hf
      refine buildRow_groupVals _ _ _ _ _ _ _ _ f hf ?_ ?_ ?_
      · exact fun he => hdisj _ hkmem (he ▸ hf)
      · exact fun he => hdisj _ hymem (he ▸ hf)
      · exact fun he => hdisj _ hsmem (he ▸ hf)

/-- C4: when the merged `extent` is the empty sequence — which is exactly
what an absent `extent` option merges to — the transform's extent is the
single pair of the global minimum and global maximum over the concatenated
ranges of all configured fields (one shared extent, not per-field extents);
a non-empty `extent` sequence is used verbatim. -/
theorem extent_shared (dv : View) (fields : List String) (hf : fields ≠ []) :
    (∀ o : Options, o.extent = none → (mergeDefaults o).extent = .arr []) ∧
    (∃ m M, resolveExtent dv fields (.arr []) = [m, M] ∧
      m ∈ allRangeVals dv fields ∧ M ∈ allRangeVals dv fields ∧
      ∀ x ∈ allRangeVals dv fields, m ≤ x ∧ x ≤ M) ∧
    (∀ l : List ℚ, l ≠ [] → resolveExtent dv fields (.arr l) = l) := by
  refine ⟨?_, ?_, ?_⟩
  · intro o ho
    simp [mergeDefaults, ho]
  · have hne := allRangeVals_ne_nil dv fields hf
    refine ⟨jsMin (allRangeVals dv fields), jsMax (allRangeVals dv fields), rfl,
      jsMin_mem _ hne, jsMax_mem _ hne, ?_⟩
    intro x hx
    exact ⟨jsMin_le _ x hx, jsMax_ge _ x hx⟩
  · intro l hl
    cases l with
    | nil => cases hl rfl
    | cons e es => rfl

/-- C5: the bandwidth is resolved exactly once per invocation, from the
column of `fields[0]` only — a known rule name is invoked on that column, a
callable is invoked on that column, a positive number is used directly — and
that single value is handed to the density estimation of every (group,
field) pair and serves as the default sampling stride. -/
theorem bandwidth_resolved_once (K : KernelModule) (B : BandwidthModule)
    (dv : View) (o : Options) (fields as3 : List String) (k : ℚ → ℚ)
    (hv : validate K (mergeDefaults o) = .ok (fields, as3, k)) :
    ∃ bw, bw = resolveBandwidth B (dv.getColumn (fields.headD ""))
        (mergeDefaults o).bandwidth ∧
      transform K B dv o = .ok (assemble
        (partition dv.rows (mergeDefaults o).groupBy) fields
        (mergeDefaults o).groupBy as3 k bw (mergeDefaults o).minSize
        (getSeriesValues ((resolveExtent dv fields (mergeDefaults o).extent).headD 0)
          (((resolveExtent dv fields (mergeDefaults o).extent).drop 1).headD 0)
          (if (mergeDefaults o).step = 0 then bw else (mergeDefaults o).step))) ∧
      (∀ s rule, (mergeDefaults o).bandwidth = .name s → B.lookup s = some rule →
        bw = rule (dv.getColumn (fields.headD ""))) ∧
      (∀ f, (mergeDefaults o).bandwidth = .fn f →
        bw = f (dv.getColumn (fields.headD ""))) ∧
      (∀ q, (mergeDefaults o).bandwidth = .num q → 0 < q → bw = q) := by
  refine ⟨resolveBandwidth B (dv.getColumn (fields.headD "")) (mergeDefaults o).bandwidth,
    rfl, ?_, ?_, ?_, ?_⟩
  · rw [transform_eq_of_validate K B dv o fields as3 k hv]
    rfl
  · intro s rule hbw hrule
    rw [hbw]
    unfold resolveBandwidth
    simp only []
    rw [hrule]
  · intro f hbw
    rw [hbw]
    rfl
  · intro q hbw hq
    rw [hbw]
    unfold resolveBandwidth
    simp only []
    rw [if_neg (not_le.mpr hq)]

/-- C6: an unusable `bandwidth` option — a string naming no known rule, a
non-positive number, or a value that is neither string, callable nor number
— never fails the transform: resolution silently falls back to the default
rule `nrd` applied to the column, and whether the transform errors is
exactly the C1 condition, which never mentions `bandwidth`. -/
theorem bandwidth_fallback (B : BandwidthModule) (col : List (Option Val))
    (bwv : BwVal) (hbad : bwInvalid B bwv) :
    resolveBandwidth B col bwv = B.nrd col ∧
    ∀ (K : KernelModule) (dv : View) (o : Options),
      (mergeDefaults o).bandwidth = bwv →
      ((∃ e, transform K B dv o = .error e) ↔
        (fieldsInvalid (mergeDefaults o).fields ∨ asInvalid (mergeDefaults o).as ∨
          methodInvalid K (mergeDefaults o).method)) := by
  constructor
  · cases bwv with
    | name s =>
      unfold bwInvalid at hbad
      simp only [] at hbad
      unfold resolveBandwidth
      simp only []
      rw [hbad]
    | fn f => cases hbad
    | num q =>
      unfold bwInvalid at hbad
      simp only [] at hbad
      unfold resolveBandwidth
      simp only []
      rw [if_pos hbad]
    | other => rfl
  · intro K dv o _
    exact transform_error_iff K B dv o

/-- C7: for every extent pair `a ≤ b` and positive stride `s`, the
pre-filter domain samples are strictly increasing, start at exactly `a`,
never exceed `b`, include `b` itself, and collapse to the single point `a`
in the degenerate case `a = b`. -/
theorem series_domain_coverage (a b s : ℚ) (hab : a ≤ b) (hs : 0 < s) :
    List.Pairwise (fun x y => x < y) (getSeriesValues a b s) ∧
    (getSeriesValues a b s).headD 0 = a ∧
    (∀ x ∈ getSeriesValues a b s, x ≤ b) ∧
    b ∈ getSeriesValues a b s ∧
    (a = b → getSeriesValues a b s = [a]) :=
  ⟨getSeriesValues_pairwise a b s hs, getSeriesValues_head a b s hab hs,
    fun x hx => getSeriesValues_le a b s hs x hx,
    getSeriesValues_end_mem a b s,
    fun he => by rw [he]; exact getSeriesValues_eq_single b s⟩

/-- C8: a (group, field) pair in which the field has no usable value in any
row of the group does not make the transform throw: the transform still
succeeds, and the pair's own output row carries empty `y` and `size`
sequences (the density is NaN everywhere, so every sample is filtered). -/
theorem empty_field_safe (K : KernelModule) (B : BandwidthModule) (dv : View)
    (o : Options) (fields as3 : List String) (k : ℚ → ℚ)
    (hv : validate K (mergeDefaults o) = .ok (fields, as3, k))
    (g : List Row) (hg : g ∈ partition dv.rows (mergeDefaults o).groupBy)
    (field : String) (hfield : field ∈ fields)
    (hempty : ∀ r ∈ g, valNum (rowGet r field) = none) :
    ∃ rows, transform K B dv o = .ok rows ∧
      ∃ row ∈ rows,
        rowGet row (asYName as3) = some (.arr []) ∧
        rowGet row (asSizeName as3) = some (.arr []) := by
  refine ⟨pipeline B dv (mergeDefaults o) fields as3 k,
    transform_eq_of_validate K B dv o fields as3 k hv, ?_⟩
  have hmem := buildRow_mem_assemble (partition dv.rows (mergeDefaults o).groupBy)
    fields (mergeDefaults o).groupBy as3 k
    (resolveBandwidth B (dv.getColumn (fields.headD "")) (mergeDefaults o).bandwidth)
    (mergeDefaults o).minSize
    (getSeriesValues ((resolveExtent dv fields (mergeDefaults o).extent).headD 0)
      (((resolveExtent dv fields (mergeDefaults o).extent).drop 1).headD 0)
      (if (mergeDefaults o).step = 0
        then resolveBandwidth B (dv.getColumn (fields.headD "")) (mergeDefaults o).bandwidth
        else (mergeDefaults o).step))
    g field hg hfield
  exact ⟨_, hmem, (buildRow_empty_curve _ _ _ _ _ _ _ _ hempty).1,
    (buildRow_empty_curve _ _ _ _ _ _ _ _ hempty).2⟩

/-- C9: the caller-visible state changes only through the single final
assignment of the fully built row sequence (line 108): a failing transform
leaves the view exactly as it was, and a successful one replaces the rows
wholesale with the transform's pure result — no partial update exists. -/
theorem view_replaced_atomically (K : KernelModule) (B : BandwidthModule)
    (s : CallerState) :
    ((∃ e, transform K B s.view s.opts = .error e) → kdeStep K B s = s) ∧
    (∀ rows, transform K B s.view s.opts = .ok rows →
      kdeStep K B s = { view := { rows := rows }, opts := s.opts }) := by
  constructor
  · intro he
    obtain ⟨e, he⟩ := he
    unfold kdeStep
    rw [he]
  · intro rows h
    unfold kdeStep
    rw [h]

/-- C10: the caller's options record is never mutated: line 42 merges the
defaults into a fresh record (`assign({}, DEFAULT_OPTIONS, options)`), so
after any invocation — error or success — every field of the caller's
options record holds exactly the value it held before. -/
theorem caller_options_unchanged (K : KernelModule) (B : BandwidthModule)
    (s : CallerState) : (kdeStep K B s).opts = s.opts := by
  unfold kdeStep
  cases transform K B s.view s.opts with
  | ok rows => rfl
  | error e => rfl

/-! ### Witnesses: the theorems above applied at concrete inputs -/

/-- Witness for the amended C2 at a concrete invocation with distinct
output names. -/
theorem output_row_shape_witness :
    transform sampleK sampleB sampleView sampleOpts = .ok [sampleRow] ∧
    sampleRow ∈ [sampleRow] ∧
    (mergeDefaults sampleOpts).as = .arr ["key", "y", "size"] ∧
    asYName ["key", "y", "size"] ≠ asSizeName ["key", "y", "size"] ∧
    ∃ ys ss,
      rowGet sampleRow (asYName ["key", "y", "size"]) = some (.arr ys) ∧
      rowGet sampleRow (asSizeName ["key", "y", "size"]) = some (.arr ss) ∧
      ys.length = ss.length ∧ ∀ v ∈ ss, (mergeDefaults sampleOpts).minSize ≤ v :=
  ⟨by with_unfolding_all rfl, List.mem_singleton_self _, rfl, by decide,
    output_row_shape sampleK sampleB sampleView sampleOpts [sampleRow] sampleRow
      ["key", "y", "size"] (by with_unfolding_all rfl) (List.mem_singleton_self _)
      rfl (by decide)⟩

/-- Witness for the amended C3 at a concrete two-group, two-field invocation. -/
theorem grouped_output_rows_witness :
    validate sampleK (mergeDefaults groupedOpts) =
      .ok (["u", "w"], ["key", "y", "size"], fun _ => (1 : ℚ)) ∧
    (∀ n ∈ (["key", "y", "size"] : List String), n ∉ (mergeDefaults groupedOpts).groupBy) ∧
    asYName ["key", "y", "size"] ≠ asKeyName ["key", "y", "size"] ∧
    asSizeName ["key", "y", "size"] ≠ asKeyName ["key", "y", "size"] ∧
    (transform sampleK sampleB groupedView groupedOpts =
      .ok (pipeline sampleB groupedView (mergeDefaults groupedOpts) ["u", "w"]
        ["key", "y", "size"] (fun _ => 1)) ∧
    (pipeline sampleB groupedView (mergeDefaults groupedOpts) ["u", "w"]
        ["key", "y", "size"] (fun _ => 1)).length =
      (partition groupedView.rows (mergeDefaults groupedOpts).groupBy).length *
        (["u", "w"] : List String).length ∧
    ∀ i j (hi : i < (partition groupedView.rows (mergeDefaults groupedOpts).groupBy).length)
      (hj : j < (["u", "w"] : List String).length),
      ∃ row,
        (pipeline sampleB groupedView (mergeDefaults groupedOpts) ["u", "w"]
          ["key", "y", "size"] (fun _ => 1))[i * (["u", "w"] : List String).length + j]? =
          some row ∧
        rowGet row (asKeyName ["key", "y", "size"]) =
          some (.str ((["u", "w"] : List String).get ⟨j, hj⟩)) ∧
        ∀ f ∈ (mergeDefaults groupedOpts).groupBy,
          rowGet row f = rowGet
            (((partition groupedView.rows (mergeDefaults groupedOpts).groupBy).get
              ⟨i, hi⟩).headD []) f) :=
  ⟨by with_unfolding_all rfl, by decide, by decide, by decide,
    grouped_output_rows sampleK sampleB groupedView groupedOpts ["u", "w"]
      ["key", "y", "size"] (fun _ => 1) (by with_unfolding_all rfl) (by decide)
      (by decide) (by decide)⟩

/-- Witness for C4 at a concrete view and field list. -/
theorem extent_shared_witness :
    (["v"] : List String) ≠ [] ∧
    ((∀ o : Options, o.extent = none → (mergeDefaults o).extent = .arr []) ∧
      (∃ m M, resolveExtent sampleView ["v"] (.arr []) = [m, M] ∧
        m ∈ allRangeVals sampleView ["v"] ∧ M ∈ allRangeVals sampleView ["v"] ∧
        ∀ x ∈ allRangeVals sampleView ["v"], m ≤ x ∧ x ≤ M) ∧
      (∀ l : List ℚ, l ≠ [] → resolveExtent sampleView ["v"] (.arr l) = l)) :=
  ⟨by decide, extent_shared sampleView ["v"] (by decide)⟩

/-- Witness for C5 at a concrete invocation. -/
theorem bandwidth_resolved_once_witness :
    validate sampleK (mergeDefaults sampleOpts) =
      .ok (["v"], ["key", "y", "size"], fun _ => (1 : ℚ)) ∧
    ∃ bw, bw = resolveBandwidth sampleB
        (sampleView.getColumn ((["v"] : List String).headD ""))
        (mergeDefaults sampleOpts).bandwidth ∧
      transform sampleK sampleB sampleView sampleOpts = .ok (assemble
        (partition sampleView.rows (mergeDefaults sampleOpts).groupBy) ["v"]
        (mergeDefaults sampleOpts).groupBy ["key", "y", "size"] (fun _ => 1) bw
        (mergeDefaults sampleOpts).minSize
        (getSeriesValues
          ((resolveExtent sampleView ["v"] (mergeDefaults sampleOpts).extent).headD 0)
          (((resolveExtent sampleView ["v"] (mergeDefaults sampleOpts).extent).drop 1).headD 0)
          (if (mergeDefaults sampleOpts).step = 0 then bw
            else (mergeDefaults sampleOpts).step))) ∧
      (∀ s rule, (mergeDefaults sampleOpts).bandwidth = .name s →
        sampleB.lookup s = some rule →
        bw = rule (sampleView.getColumn ((["v"] : List String).headD ""))) ∧
      (∀ f, (mergeDefaults sampleOpts).bandwidth = .fn f →
        bw = f (sampleView.getColumn ((["v"] : List String).headD ""))) ∧
      (∀ q, (mergeDefaults sampleOpts).bandwidth = .num q → 0 < q → bw = q) :=
  ⟨by with_unfolding_all rfl,
    bandwidth_resolved_once sampleK sampleB sampleView sampleOpts ["v"]
      ["key", "y", "size"] (fun _ => 1) (by with_unfolding_all rfl)⟩

/-- Witness for C6 with a concretely invalid bandwidth option. -/
theorem bandwidth_fallback_witness :
    bwInvalid sampleB (.num (-1)) ∧
    (resolveBandwidth sampleB [] (.num (-1)) = sampleB.nrd [] ∧
     ∀ (K : KernelModule) (dv : View) (o : Options),
       (mergeDefaults o).bandwidth = .num (-1) →
       ((∃ e, transform K sampleB dv o = .error e) ↔
         (fieldsInvalid (mergeDefaults o).fields ∨ asInvalid (mergeDefaults o).as ∨
           methodInvalid K (mergeDefaults o).method))) :=
  ⟨by norm_num [bwInvalid],
    bandwidth_fallback sampleB [] (.num (-1)) (by norm_num [bwInvalid])⟩

/-- Witness for C7 at a concrete extent and stride. -/
theorem series_domain_coverage_witness :
    (0 : ℚ) ≤ 1 ∧ (0 : ℚ) < 1 / 3 ∧
    (List.Pairwise (fun x y => x < y) (getSeriesValues 0 1 (1 / 3)) ∧
     (getSeriesValues 0 1 (1 / 3)).headD 0 = 0 ∧
     (∀ x ∈ getSeriesValues 0 1 (1 / 3), x ≤ 1) ∧
     (1 : ℚ) ∈ getSeriesValues 0 1 (1 / 3) ∧
     ((0 : ℚ) = 1 → getSeriesValues 0 1 (1 / 3) = [0])) :=
  ⟨by norm_num, by norm_num,
    series_domain_coverage 0 1 (1 / 3) (by norm_num) (by norm_num)⟩

/-- Witness for C8 on the empty view, whose single degenerate group has no
values for the configured field. -/
theorem empty_field_safe_witness :
    validate sampleK (mergeDefaults sampleOpts) =
      .ok (["v"], ["key", "y", "size"], fun _ => (1 : ℚ)) ∧
    ([] : List Row) ∈ partition emptyView.rows (mergeDefaults sampleOpts).groupBy ∧
    "v" ∈ (["v"] : List String) ∧
    (∃ rows, transform sampleK sampleB emptyView sampleOpts = .ok rows ∧
      ∃ row ∈ rows,
        rowGet row (asYName ["key", "y", "size"]) = some (.arr []) ∧
        rowGet row (asSizeName ["key", "y", "size"]) = some (.arr [])) :=
  ⟨by with_unfolding_all rfl, by decide, by decide,
    empty_field_safe sampleK sampleB emptyView sampleOpts ["v"] ["key", "y", "size"]
      (fun _ => 1) (by with_unfolding_all rfl) [] (by decide) "v" (by decide)
      (by simp)⟩

/-- Witness for C9 at a concretely failing invocation: the caller state is
untouched. -/
theorem view_replaced_atomically_witness :
    (∃ e, transform sampleK sampleB failState.view failState.opts = .error e) ∧
    kdeStep sampleK sampleB failState = failState :=
  ⟨⟨.invalidFields, by with_unfolding_all rfl⟩,
    (view_replaced_atomically sampleK sampleB failState).1
      ⟨.invalidFields, by with_unfolding_all rfl⟩⟩
